import Mathlib

/-!
Verification of the string-to-regex pattern synthesizer of InvoiceMaster
(`src/convert_regex.py`, class `RegexConverter`).

The synthesizer `string_to_regex(input_string, generic_matching, full_match)`
is embedded shallowly: strings are `List Char` internally, the generic-mode
while loop is given both as a structurally recursive scanner (`genericScan`)
and as an explicit cursor-state step function (`loopStep` / `runLoop`)
mirroring the Python loop variable-for-variable; the two are proved to agree.
A small regex AST with a parser and matcher for the emitted pattern dialect
(literals, escaped metacharacters, the classes emitted by the synthesizer,
fixed repetition counts, anchors) gives meaning to "the pattern matches".
-/

namespace InvoiceMaster

/-- Opening curly brace character (written via its code point). -/
def lbrace : Char := Char.ofNat 123

/-- Closing curly brace character (written via its code point). -/
def rbrace : Char := Char.ofNat 125

/-- The constant `self.regex_special_chars = r".^$*+?()[]{}|\\"` from
`RegexConverter.__init__`.  In the Python raw string the backslash appears
twice; the list reproduces that verbatim (membership is unaffected). -/
def regex_special_chars : List Char :=
  ['.', '^', '$', '*', '+', '?', '(', ')', '[', ']', lbrace, rbrace, '|', '\\', '\\']

/-- Model of Python `str.isspace` restricted to code points below 0x100
(the inputs considered here): space, tab, LF, VT, FF, CR, the four
information separators 0x1C-0x1F, NEL 0x85 and NBSP 0xA0. -/
def py_isspace (c : Char) : Bool :=
  c.toNat = 32 || c.toNat = 9 || c.toNat = 10 || c.toNat = 11 || c.toNat = 12 ||
    c.toNat = 13 || (28 ≤ c.toNat && c.toNat ≤ 31) || c.toNat = 133 || c.toNat = 160

/-- Model of Python `str.isalpha` restricted to code points below 0x100:
ASCII letters, plus the Latin-1 alphabetic code points 0xAA, 0xB5, 0xBA and
0xC0-0xFF excluding the multiplication (0xD7) and division (0xF7) signs.
Crucially this accepts non-ASCII letters such as é (0xE9), as Python does. -/
def py_isalpha (c : Char) : Bool :=
  (65 ≤ c.toNat && c.toNat ≤ 90) || (97 ≤ c.toNat && c.toNat ≤ 122) ||
    c.toNat = 170 || c.toNat = 181 || c.toNat = 186 ||
    (192 ≤ c.toNat && c.toNat ≤ 255 && !(c.toNat = 215) && !(c.toNat = 247))

/-- Model of Python `str.isdigit` restricted to code points below 0x100:
ASCII digits plus the superscripts ², ³, ¹ (0xB2, 0xB3, 0xB9). -/
def py_isdigit (c : Char) : Bool :=
  (48 ≤ c.toNat && c.toNat ≤ 57) || c.toNat = 178 || c.toNat = 179 || c.toNat = 185

/-- Escaping of a single character:
`f"\\{c}" if c in self.regex_special_chars else c`. -/
def escChar (c : Char) : List Char :=
  if c ∈ regex_special_chars then ['\\', c] else [c]

/-- Character-by-character escaping of a string, as in
`"".join([f"\\{c}" if c in self.regex_special_chars else c for c in s])`. -/
def escList : List Char → List Char
  | [] => []
  | c :: t => escChar c ++ escList t

/-- The whitespace token emitted for a run of length `n`:
`\s{{n}}` if `n > 1` else `\s` (from the f-strings in the space branch). -/
def spaceTok (n : Nat) : List Char :=
  (if 1 < n then "\\s\x7b" ++ toString n ++ "\x7d" else "\\s").data

/-- The letter token emitted for a run of length `n`:
`[a-zA-Z]{{n}}` if `n > 1` else `[a-zA-Z]`. -/
def alphaTok (n : Nat) : List Char :=
  (if 1 < n then "[a-zA-Z]\x7b" ++ toString n ++ "\x7d" else "[a-zA-Z]").data

/-- The digit token emitted for a run of length `n`:
`\d{{n}}` if `n > 1` else `\d`. -/
def digitTok (n : Nat) : List Char :=
  (if 1 < n then "\\d\x7b" ++ toString n ++ "\x7d" else "\\d").data

/-- The generic-matching while loop of `string_to_regex`, written as a
fuel-indexed recursion over the not-yet-scanned suffix of the input (the
fuel, always instantiated with the suffix length, only serves to make the
recursion structural).  The three state components are the remaining input
(index `i` onwards), `in_quotes` and `quote_buffer`; the returned list is
the `parts` list produced from this state on, including the final
`if quote_buffer:` flush. -/
def genericScanAux : Nat → List Char → Bool → List Char → List (List Char)
  | _, [], _, quote_buffer =>
    if quote_buffer = [] then [] else [escList quote_buffer]
  | 0, _ :: _, _, quote_buffer =>
    if quote_buffer = [] then [] else [escList quote_buffer]
  | fuel + 1, char :: rest, in_quotes, quote_buffer =>
    if char = '"' then
      if in_quotes then
        escList quote_buffer :: genericScanAux fuel rest false []
      else
        genericScanAux fuel rest true quote_buffer
    else if in_quotes then
      genericScanAux fuel rest in_quotes (quote_buffer ++ [char])
    else if py_isspace char then
      spaceTok (1 + (rest.takeWhile py_isspace).length) ::
        genericScanAux fuel (rest.dropWhile py_isspace) in_quotes quote_buffer
    else if py_isalpha char then
      alphaTok (1 + (rest.takeWhile py_isalpha).length) ::
        genericScanAux fuel (rest.dropWhile py_isalpha) in_quotes quote_buffer
    else if py_isdigit char then
      digitTok (1 + (rest.takeWhile py_isdigit).length) ::
        genericScanAux fuel (rest.dropWhile py_isdigit) in_quotes quote_buffer
    else
      escChar char :: genericScanAux fuel rest in_quotes quote_buffer

/-- The generic-matching scan: `genericScanAux` with just enough fuel. -/
def genericScan (l : List Char) (in_quotes : Bool) (quote_buffer : List Char) :
    List (List Char) :=
  genericScanAux l.length l in_quotes quote_buffer

/-- The synthesizer `RegexConverter.string_to_regex`. -/
def string_to_regex (input_string : String) (generic_matching : Bool)
    (full_match : Bool) : String :=
  let result : List Char :=
    if generic_matching = false then escList input_string.data
    else (genericScan input_string.data false []).flatten
  if full_match then String.mk ('^' :: (result ++ ['$'])) else String.mk result

/-- Atoms of the regex dialect emitted by the synthesizer: a literal
character, the whitespace class `\s`, the digit class `\d`, and the
alphabetic class `[a-zA-Z]`. -/
inductive RAtom where
  | lit : Char → RAtom
  | wsClass : RAtom
  | digitClass : RAtom
  | alphaClass : RAtom
deriving DecidableEq

/-- A token of the emitted dialect: an atom with a fixed repetition count
(`count = 1` when no brace group follows the atom). -/
structure RTok where
  atom : RAtom
  count : Nat
deriving DecidableEq

/-- Numeric value of a list of decimal digit characters. -/
def digitsToNat (l : List Char) : Nat :=
  l.foldl (fun a c => a * 10 + (c.toNat - 48)) 0

/-- Parse an optional brace-delimited repetition count; returns the count
(1 when no brace group is present) and the unconsumed rest. -/
def parseCount : List Char → Option (Nat × List Char)
  | [] => some (1, [])
  | c :: rest =>
    if c = lbrace then
      match rest.dropWhile Char.isDigit with
      | c2 :: rest2 =>
        if c2 = rbrace ∧ rest.takeWhile Char.isDigit ≠ [] then
          some (digitsToNat (rest.takeWhile Char.isDigit), rest2)
        else none
      | [] => none
    else some (1, c :: rest)

/-- Parser for the (anchor-free) body of the emitted regex dialect, as a
token list; fuel-indexed to make the recursion structural (the fuel is
always the input length).  Backslash escapes yield `\s`, `\d` or a literal;
the seven-character class `[a-zA-Z]` yields the alphabetic class; any other
regex metacharacter is rejected; everything else is a literal. -/
def parseToksAux : Nat → List Char → Option (List RTok)
  | _, [] => some []
  | 0, _ :: _ => none
  | fuel + 1, '\\' :: c :: rest =>
    let a := if c = 's' then RAtom.wsClass
      else if c = 'd' then RAtom.digitClass else RAtom.lit c
    match parseCount rest with
    | some (n, rest2) => (parseToksAux fuel rest2).map (fun ts => ⟨a, n⟩ :: ts)
    | none => none
  | _ + 1, ['\\'] => none
  | fuel + 1, '[' :: 'a' :: '-' :: 'z' :: 'A' :: '-' :: 'Z' :: ']' :: rest =>
    match parseCount rest with
    | some (n, rest2) =>
      (parseToksAux fuel rest2).map (fun ts => ⟨RAtom.alphaClass, n⟩ :: ts)
    | none => none
  | fuel + 1, c :: rest =>
    if c = '\\' ∨ c = '[' ∨ c = ']' ∨ c = lbrace ∨ c = rbrace ∨ c = '^' ∨
        c = '$' ∨ c = '*' ∨ c = '+' ∨ c = '?' ∨ c = '|' ∨ c = '(' ∨ c = ')' ∨
        c = '.' then none
    else (parseToksAux fuel rest).map (fun ts => ⟨RAtom.lit c, 1⟩ :: ts)

/-- Parser entry point with just enough fuel. -/
def parseToks (l : List Char) : Option (List RTok) :=
  parseToksAux l.length l

/-- Whether a single character is accepted by an atom, following the
semantics of the Python `re` module on the code points considered here
(`\s` agrees with `str.isspace` below 0x100; `\d` is the ASCII digits;
`[a-zA-Z]` is exactly the ASCII letters). -/
def atomMatch : RAtom → Char → Bool
  | .lit c, x => x = c
  | .wsClass, x => py_isspace x
  | .digitClass, x => x.isDigit
  | .alphaClass, x => ('a' ≤ x && x ≤ 'z') || ('A' ≤ x && x ≤ 'Z')

/-- Anchored matching of a token list against a subject: each token
consumes exactly `count` characters accepted by its atom, and the subject
must be exhausted at the end. -/
def toksMatch : List RTok → List Char → Bool
  | [], s => s.isEmpty
  | t :: ts, s =>
    (s.take t.count).length == t.count &&
      (s.take t.count).all (atomMatch t.atom) && toksMatch ts (s.drop t.count)

/-- Full (anchored) match of an anchor-free pattern string against a
subject string; an unparsable pattern matches nothing. -/
def regexFullMatch (pat subj : String) : Bool :=
  match parseToks pat.data with
  | some ts => toksMatch ts subj.data
  | none => false

/-- Strip one leading `^` anchor and one trailing `$` anchor, if present. -/
def stripAnchors (l : List Char) : List Char :=
  let l1 := match l with
    | '^' :: t => t
    | _ => l
  match l1.getLast? with
  | some '$' => l1.dropLast
  | _ => l1

/-- A pattern string is valid (compilable in the emitted dialect) when its
anchor-stripped body parses into a token list. -/
def patternValid (p : String) : Bool :=
  (parseToks (stripAnchors p.data)).isSome

/-- State of the Python while loop in the generic branch of
`string_to_regex`: the cursor `i`, the `in_quotes` flag, the
`quote_buffer`, and the accumulated `parts`. -/
structure LoopState where
  i : Nat
  in_quotes : Bool
  quote_buffer : List Char
  parts : List (List Char)
deriving DecidableEq

/-- One iteration of the while loop body, transcribed branch by branch
from the Python source (only meaningful when `st.i < s.length`); the inner
counting `while` loops of the run branches are rendered as `takeWhile` on
the suffix after the cursor, and the letter/digit branches keep the
source's separate `count > 1` / `count = 1` cursor updates. -/
def loopStep (s : List Char) (st : LoopState) : LoopState :=
  let char := s.getD st.i ' '
  if char = '"' then
    if st.in_quotes then
      { i := st.i + 1, in_quotes := false, quote_buffer := [],
        parts := st.parts ++ [escList st.quote_buffer] }
    else
      { st with i := st.i + 1, in_quotes := true }
  else if st.in_quotes then
    { st with i := st.i + 1, quote_buffer := st.quote_buffer ++ [char] }
  else if py_isspace char then
    let space_count := 1 + ((s.drop (st.i + 1)).takeWhile py_isspace).length
    { st with i := st.i + space_count, parts := st.parts ++ [spaceTok space_count] }
  else if py_isalpha char then
    let letter_count := 1 + ((s.drop (st.i + 1)).takeWhile py_isalpha).length
    if 1 < letter_count then
      { st with i := st.i + letter_count, parts := st.parts ++ [alphaTok letter_count] }
    else
      { st with i := st.i + 1, parts := st.parts ++ [alphaTok letter_count] }
  else if py_isdigit char then
    let digit_count := 1 + ((s.drop (st.i + 1)).takeWhile py_isdigit).length
    if 1 < digit_count then
      { st with i := st.i + digit_count, parts := st.parts ++ [digitTok digit_count] }
    else
      { st with i := st.i + 1, parts := st.parts ++ [digitTok digit_count] }
  else
    { st with i := st.i + 1, parts := st.parts ++ [escChar char] }

/-- Run the while loop for at most `fuel` iterations, stopping as soon as
the loop condition `i < len(input_string)` fails. -/
def runLoop (s : List Char) : Nat → LoopState → LoopState
  | 0, st => st
  | fuel + 1, st =>
    if st.i < s.length then runLoop s fuel (loopStep s st) else st

/-- The initial loop state: `i = 0`, not in quotes, empty buffer, no parts. -/
def initLoopState : LoopState := ⟨0, false, [], []⟩

/-- The parts list extracted from a final loop state, including the
trailing `if quote_buffer:` flush after the loop. -/
def loopParts (st : LoopState) : List (List Char) :=
  st.parts ++ (if st.quote_buffer = [] then [] else [escList st.quote_buffer])

/-- The set of regex-special characters exactly as the spec words it:
`. ^ $ * + ? ( ) [ ] \x7b \x7d | \` (each once). -/
def spec_special : List Char :=
  ['.', '^', '$', '*', '+', '?', '(', ')', '[', ']', lbrace, rbrace, '|', '\\']

/-- The escaping rule exactly as the spec words it: the in-order
concatenation over input characters of a backslash followed by the
character when it is regex-special, and the character alone otherwise. -/
def spec_escape : List Char → List Char
  | [] => []
  | c :: t => (if c ∈ spec_special then ['\\', c] else [c]) ++ spec_escape t

/-- Dropping a prefix by a predicate never lengthens a list. -/
theorem dropWhile_length_le (p : Char → Bool) :
    ∀ l : List Char, (l.dropWhile p).length ≤ l.length := by
  intro l
  induction l with
  | nil => simp [List.dropWhile]
  | cons c t ih =>
    simp only [List.dropWhile]
    cases p c
    · simp
    · exact Nat.le_succ_of_le ih

/-- The result of `genericScanAux` does not depend on the fuel, as long as
the fuel covers the length of the remaining input. -/
theorem genericScanAux_fuel : ∀ (f1 : Nat) (l : List Char), l.length ≤ f1 →
    ∀ (f2 : Nat), l.length ≤ f2 → ∀ (inq : Bool) (buf : List Char),
    genericScanAux f1 l inq buf = genericScanAux f2 l inq buf := by
  intro f1
  induction f1 with
  | zero =>
    intro l hl f2 _ inq buf
    have : l = [] := List.length_eq_zero.mp (Nat.le_zero.mp hl)
    subst this
    cases f2 <;> rfl
  | succ f ih =>
    intro l hl f2 h2 inq buf
    cases l with
    | nil => cases f2 <;> rfl
    | cons char rest =>
      cases f2 with
      | zero => exact absurd h2 (by simp)
      | succ g =>
        have hr : rest.length ≤ f := by simpa using hl
        have hg : rest.length ≤ g := by simpa using h2
        simp only [genericScanAux]
        have hsp := dropWhile_length_le py_isspace rest
        have hal := dropWhile_length_le py_isalpha rest
        have hdg := dropWhile_length_le py_isdigit rest
        split_ifs <;>
          first
            | rfl
            | exact congrArg _ (ih rest hr g hg _ _)
            | exact ih rest hr g hg _ _
            | exact congrArg _ (ih _ (le_trans hsp hr) g (le_trans hsp hg) _ _)
            | exact congrArg _ (ih _ (le_trans hal hr) g (le_trans hal hg) _ _)
            | exact congrArg _ (ih _ (le_trans hdg hr) g (le_trans hdg hg) _ _)

/-- Unfolding equation of `genericScan` on the empty remaining input:
only the final `if quote_buffer:` flush happens. -/
theorem genericScan_nil (in_quotes : Bool) (quote_buffer : List Char) :
    genericScan [] in_quotes quote_buffer =
      if quote_buffer = [] then [] else [escList quote_buffer] := rfl

/-- Unfolding equation of `genericScan` on a non-empty remaining input,
mirroring the body of the Python while loop branch by branch. -/
theorem genericScan_cons (char : Char) (rest : List Char) (in_quotes : Bool)
    (quote_buffer : List Char) :
    genericScan (char :: rest) in_quotes quote_buffer =
      if char = '"' then
        if in_quotes then
          escList quote_buffer :: genericScan rest false []
        else
          genericScan rest true quote_buffer
      else if in_quotes then
        genericScan rest in_quotes (quote_buffer ++ [char])
      else if py_isspace char then
        spaceTok (1 + (rest.takeWhile py_isspace).length) ::
          genericScan (rest.dropWhile py_isspace) in_quotes quote_buffer
      else if py_isalpha char then
        alphaTok (1 + (rest.takeWhile py_isalpha).length) ::
          genericScan (rest.dropWhile py_isalpha) in_quotes quote_buffer
      else if py_isdigit char then
        digitTok (1 + (rest.takeWhile py_isdigit).length) ::
          genericScan (rest.dropWhile py_isdigit) in_quotes quote_buffer
      else
        escChar char :: genericScan rest in_quotes quote_buffer := by
  show genericScanAux (rest.length + 1) (char :: rest) in_quotes quote_buffer = _
  simp only [genericScanAux, genericScan]
  have hsp := dropWhile_length_le py_isspace rest
  have hal := dropWhile_length_le py_isalpha rest
  have hdg := dropWhile_length_le py_isdigit rest
  split_ifs <;>
    first
      | rfl
      | exact congrArg _ (genericScanAux_fuel _ _ (le_refl _) _ (le_refl _) _ _)
      | exact congrArg _ (genericScanAux_fuel _ _ hsp _ (le_refl _) _ _)
      | exact congrArg _ (genericScanAux_fuel _ _ hal _ (le_refl _) _ _)
      | exact congrArg _ (genericScanAux_fuel _ _ hdg _ (le_refl _) _ _)

/-- Taking by a predicate skips over a prefix on which it holds. -/
theorem takeWhile_append_all (p : Char → Bool) :
    ∀ (t rest : List Char), (∀ c ∈ t, p c = true) →
      (t ++ rest).takeWhile p = t ++ rest.takeWhile p := by
  intro t
  induction t with
  | nil => intro rest _; rfl
  | cons c u ih =>
    intro rest h
    have hc : p c = true := h c (by simp)
    simp only [List.cons_append, List.takeWhile_cons, hc, if_true]
    rw [ih rest (fun x hx => h x (by simp [hx]))]

/-- Dropping by a predicate passes over a prefix on which it holds. -/
theorem dropWhile_append_all (p : Char → Bool) :
    ∀ (t rest : List Char), (∀ c ∈ t, p c = true) →
      (t ++ rest).dropWhile p = rest.dropWhile p := by
  intro t
  induction t with
  | nil => intro rest _; rfl
  | cons c u ih =>
    intro rest h
    have hc : p c = true := h c (by simp)
    simp only [List.cons_append, List.dropWhile_cons, hc, if_true]
    exact ih rest (fun x hx => h x (by simp [hx]))

/-- A list whose head fails the predicate has an empty `takeWhile`. -/
theorem takeWhile_eq_nil_of_head (p : Char → Bool) (rest : List Char)
    (h : ∀ c, rest.head? = some c → p c = false) : rest.takeWhile p = [] := by
  cases rest with
  | nil => rfl
  | cons c t => simp [List.takeWhile_cons, h c rfl]

/-- A list whose head fails the predicate is fixed by `dropWhile`. -/
theorem dropWhile_eq_self_of_head (p : Char → Bool) (rest : List Char)
    (h : ∀ c, rest.head? = some c → p c = false) : rest.dropWhile p = rest := by
  cases rest with
  | nil => rfl
  | cons c t => simp [List.dropWhile_cons, h c rfl]

/-- A whitespace character is not the quote delimiter. -/
theorem py_isspace_ne_quote {c : Char} (h : py_isspace c = true) : ¬(c = '"') := by
  intro he
  subst he
  exact absurd h (by decide)

/-- An alphabetic character is not the quote delimiter. -/
theorem py_isalpha_ne_quote {c : Char} (h : py_isalpha c = true) : ¬(c = '"') := by
  intro he
  subst he
  exact absurd h (by decide)

/-- A digit character is not the quote delimiter. -/
theorem py_isdigit_ne_quote {c : Char} (h : py_isdigit c = true) : ¬(c = '"') := by
  intro he
  subst he
  exact absurd h (by decide)

/-- The alphabetic and whitespace classifiers are disjoint. -/
theorem py_isalpha_not_isspace {c : Char} (h : py_isalpha c = true) :
    py_isspace c = false := by
  simp only [py_isalpha, Bool.or_eq_true, Bool.and_eq_true, decide_eq_true_eq,
    Bool.not_eq_true', decide_eq_false_iff_not] at h
  simp only [py_isspace, Bool.or_eq_false_iff, Bool.and_eq_false_iff,
    decide_eq_false_iff_not]
  omega

/-- The digit and whitespace classifiers are disjoint. -/
theorem py_isdigit_not_isspace {c : Char} (h : py_isdigit c = true) :
    py_isspace c = false := by
  simp only [py_isdigit, Bool.or_eq_true, Bool.and_eq_true, decide_eq_true_eq] at h
  simp only [py_isspace, Bool.or_eq_false_iff, Bool.and_eq_false_iff,
    decide_eq_false_iff_not]
  omega

/-- The digit and alphabetic classifiers are disjoint. -/
theorem py_isdigit_not_isalpha {c : Char} (h : py_isdigit c = true) :
    py_isalpha c = false := by
  simp only [py_isdigit, Bool.or_eq_true, Bool.and_eq_true, decide_eq_true_eq] at h
  simp only [py_isalpha, Bool.or_eq_false_iff, Bool.and_eq_false_iff,
    decide_eq_false_iff_not, Bool.not_eq_false, decide_eq_true_eq]
  omega

/-- Scanning inside an open quote collects every character up to the
closing quote into the buffer, then flushes the escaped buffer as one
segment and resumes outside quotes with an empty buffer. -/
theorem genericScan_inQuotes (content : List Char) :
    ∀ (rest buf : List Char), (∀ c ∈ content, ¬(c = '"')) →
    genericScan (content ++ '"' :: rest) true buf =
      escList (buf ++ content) :: genericScan rest false [] := by
  induction content with
  | nil =>
    intro rest buf _
    rw [List.nil_append, genericScan_cons, if_pos rfl, if_pos rfl, List.append_nil]
  | cons c t ih =>
    intro rest buf h
    rw [List.cons_append, genericScan_cons, if_neg (h c (by simp)), if_pos rfl,
      ih rest (buf ++ [c]) (fun x hx => h x (by simp [hx]))]
    simp

/-- Scanning inside an open quote that is never closed buffers everything
and flushes the escaped buffer at end of input. -/
theorem genericScan_inQuotes_end (content : List Char) :
    ∀ buf : List Char, (∀ c ∈ content, ¬(c = '"')) →
    genericScan content true buf =
      if buf ++ content = [] then [] else [escList (buf ++ content)] := by
  induction content with
  | nil =>
    intro buf _
    rw [genericScan_nil, List.append_nil]
  | cons c t ih =>
    intro buf h
    rw [genericScan_cons, if_neg (h c (by simp)), if_pos rfl,
      ih (buf ++ [c]) (fun x hx => h x (by simp [hx]))]
    simp

/-- A quoted span is consumed whole: the two quote characters disappear
and the buffered text between them is emitted escaped, as one segment. -/
theorem genericScan_quoted (content rest : List Char)
    (h : ∀ c ∈ content, ¬(c = '"')) :
    genericScan ('"' :: (content ++ '"' :: rest)) false [] =
      escList content :: genericScan rest false [] := by
  rw [genericScan_cons, if_pos rfl, if_neg (by simp),
    genericScan_inQuotes content rest [] h, List.nil_append]

/-- An unterminated quoted span is still flushed, escaped, at end of input. -/
theorem genericScan_unterminated (content : List Char)
    (h : ∀ c ∈ content, ¬(c = '"')) (hne : content ≠ []) :
    genericScan ('"' :: content) false [] = [escList content] := by
  rw [genericScan_cons, if_pos rfl, if_neg (by simp),
    genericScan_inQuotes_end content [] h, List.nil_append, if_neg hne]

/-- A maximal whitespace run is replaced by one whitespace token carrying
the exact run length. -/
theorem genericScan_space_run (cs rest : List Char) (h1 : cs ≠ [])
    (h2 : ∀ c ∈ cs, py_isspace c = true)
    (h3 : ∀ c, rest.head? = some c → py_isspace c = false) :
    genericScan (cs ++ rest) false [] =
      spaceTok cs.length :: genericScan rest false [] := by
  cases cs with
  | nil => exact absurd rfl h1
  | cons c t =>
    have hc : py_isspace c = true := h2 c (by simp)
    have ht : ∀ x ∈ t, py_isspace x = true := fun x hx => h2 x (by simp [hx])
    rw [List.cons_append, genericScan_cons, if_neg (py_isspace_ne_quote hc),
      if_neg (by simp), if_pos hc,
      takeWhile_append_all py_isspace t rest ht,
      dropWhile_append_all py_isspace t rest ht,
      takeWhile_eq_nil_of_head py_isspace rest h3,
      dropWhile_eq_self_of_head py_isspace rest h3]
    simp [Nat.add_comm]

/-- A maximal alphabetic run is replaced by one letter token carrying the
exact run length. -/
theorem genericScan_alpha_run (cs rest : List Char) (h1 : cs ≠ [])
    (h2 : ∀ c ∈ cs, py_isalpha c = true)
    (h3 : ∀ c, rest.head? = some c → py_isalpha c = false) :
    genericScan (cs ++ rest) false [] =
      alphaTok cs.length :: genericScan rest false [] := by
  cases cs with
  | nil => exact absurd rfl h1
  | cons c t =>
    have hc : py_isalpha c = true := h2 c (by simp)
    have ht : ∀ x ∈ t, py_isalpha x = true := fun x hx => h2 x (by simp [hx])
    rw [List.cons_append, genericScan_cons, if_neg (py_isalpha_ne_quote hc),
      if_neg (by simp), if_neg (by simp [py_isalpha_not_isspace hc]), if_pos hc,
      takeWhile_append_all py_isalpha t rest ht,
      dropWhile_append_all py_isalpha t rest ht,
      takeWhile_eq_nil_of_head py_isalpha rest h3,
      dropWhile_eq_self_of_head py_isalpha rest h3]
    simp [Nat.add_comm]

/-- A maximal digit run is replaced by one digit token carrying the exact
run length. -/
theorem genericScan_digit_run (cs rest : List Char) (h1 : cs ≠ [])
    (h2 : ∀ c ∈ cs, py_isdigit c = true)
    (h3 : ∀ c, rest.head? = some c → py_isdigit c = false) :
    genericScan (cs ++ rest) false [] =
      digitTok cs.length :: genericScan rest false [] := by
  cases cs with
  | nil => exact absurd rfl h1
  | cons c t =>
    have hc : py_isdigit c = true := h2 c (by simp)
    have ht : ∀ x ∈ t, py_isdigit x = true := fun x hx => h2 x (by simp [hx])
    rw [List.cons_append, genericScan_cons, if_neg (py_isdigit_ne_quote hc),
      if_neg (by simp), if_neg (by simp [py_isdigit_not_isspace hc]),
      if_neg (by simp [py_isdigit_not_isalpha hc]), if_pos hc,
      takeWhile_append_all py_isdigit t rest ht,
      dropWhile_append_all py_isdigit t rest ht,
      takeWhile_eq_nil_of_head py_isdigit rest h3,
      dropWhile_eq_self_of_head py_isdigit rest h3]
    simp [Nat.add_comm]

/-- Dropping by a predicate is dropping the length of the taken prefix. -/
theorem dropWhile_eq_drop (p : Char → Bool) :
    ∀ l : List Char, l.dropWhile p = l.drop (l.takeWhile p).length := by
  intro l
  induction l with
  | nil => rfl
  | cons c t ih =>
    by_cases h : p c = true
    · simp [List.dropWhile_cons, List.takeWhile_cons, h, ih]
    · simp [List.dropWhile_cons, List.takeWhile_cons, h]

/-- Every iteration of the loop strictly advances the cursor. -/
theorem loopStep_advances (s : List Char) (st : LoopState) :
    st.i < (loopStep s st).i := by
  simp only [loopStep]
  split_ifs <;> simp

/-- Run with fuel at least the distance to the end, the loop drives the
cursor to (or past) the end of the input: it terminates within
`s.length` iterations from the initial state. -/
theorem runLoop_reaches (s : List Char) :
    ∀ (fuel : Nat) (st : LoopState), s.length ≤ st.i + fuel →
      s.length ≤ (runLoop s fuel st).i := by
  intro fuel
  induction fuel with
  | zero =>
    intro st h
    simpa using h
  | succ f ih =>
    intro st h
    simp only [runLoop]
    split_ifs with hc
    · have := loopStep_advances s st
      exact ih (loopStep s st) (by omega)
    · omega

/-- The explicit cursor loop computes the same parts list as the
recursive scanner, whenever the fuel covers the remaining input. -/
theorem runLoop_eq_genericScan (s : List Char) :
    ∀ (fuel : Nat) (st : LoopState), s.length ≤ st.i + fuel →
    loopParts (runLoop s fuel st) =
      st.parts ++ genericScan (s.drop st.i) st.in_quotes st.quote_buffer := by
  intro fuel
  induction fuel with
  | zero =>
    intro st h
    have hd : s.drop st.i = [] := List.drop_eq_nil_of_le (by omega)
    show loopParts st = _
    rw [hd, genericScan_nil, loopParts]
  | succ f ih =>
    intro st h
    simp only [runLoop]
    by_cases hc : st.i < s.length
    · rw [if_pos hc]
      have hd : s.drop st.i = s.getD st.i ' ' :: s.drop (st.i + 1) := by
        rw [List.getD_eq_getElem s ' ' hc]
        exact List.drop_eq_getElem_cons hc
      rw [hd, genericScan_cons]
      by_cases hq : s.getD st.i ' ' = '"'
      · by_cases hin : st.in_quotes = true
        · have hstep : loopStep s st =
              ⟨st.i + 1, false, [], st.parts ++ [escList st.quote_buffer]⟩ := by
            simp only [loopStep]
            rw [if_pos hq, if_pos hin]
          rw [ih (loopStep s st) (by rw [hstep]; simp; omega), hstep, if_pos hq,
            if_pos hin]
          simp
        · have hstep : loopStep s st =
              ⟨st.i + 1, true, st.quote_buffer, st.parts⟩ := by
            simp only [loopStep]
            rw [if_pos hq, if_neg hin]
          rw [ih (loopStep s st) (by rw [hstep]; simp; omega), hstep, if_pos hq,
            if_neg hin]
      · by_cases hin : st.in_quotes = true
        · have hstep : loopStep s st =
              ⟨st.i + 1, st.in_quotes, st.quote_buffer ++ [s.getD st.i ' '],
                st.parts⟩ := by
            simp only [loopStep]
            rw [if_neg hq, if_pos hin]
          rw [ih (loopStep s st) (by rw [hstep]; simp; omega), hstep, if_neg hq,
            if_pos hin]
        · by_cases hsp : py_isspace (s.getD st.i ' ') = true
          · have hstep : loopStep s st =
                ⟨st.i + (1 + ((s.drop (st.i + 1)).takeWhile py_isspace).length),
                  st.in_quotes, st.quote_buffer,
                  st.parts ++
                    [spaceTok (1 + ((s.drop (st.i + 1)).takeWhile py_isspace).length)]⟩ := by
              simp only [loopStep]
              rw [if_neg hq, if_neg hin, if_pos hsp]
            have hdw : s.drop
                (st.i + (1 + ((s.drop (st.i + 1)).takeWhile py_isspace).length)) =
                (s.drop (st.i + 1)).dropWhile py_isspace := by
              rw [dropWhile_eq_drop, List.drop_drop]
              congr 1
              omega
            rw [ih (loopStep s st) (by rw [hstep]; simp; omega), hstep, if_neg hq,
              if_neg hin, if_pos hsp]
            dsimp only
            rw [hdw]
            simp
          · by_cases hal : py_isalpha (s.getD st.i ' ') = true
            · have hdw : s.drop
                  (st.i + (1 + ((s.drop (st.i + 1)).takeWhile py_isalpha).length)) =
                  (s.drop (st.i + 1)).dropWhile py_isalpha := by
                rw [dropWhile_eq_drop, List.drop_drop]
                congr 1
                omega
              by_cases hgt : 1 < 1 + ((s.drop (st.i + 1)).takeWhile py_isalpha).length
              · have hstep : loopStep s st =
                    ⟨st.i + (1 + ((s.drop (st.i + 1)).takeWhile py_isalpha).length),
                      st.in_quotes, st.quote_buffer,
                      st.parts ++
                        [alphaTok
                          (1 + ((s.drop (st.i + 1)).takeWhile py_isalpha).length)]⟩ := by
                  simp only [loopStep]
                  rw [if_neg hq, if_neg hin, if_neg hsp, if_pos hal, if_pos hgt]
                rw [ih (loopStep s st) (by rw [hstep]; simp; omega), hstep,
                  if_neg hq, if_neg hin, if_neg hsp, if_pos hal]
                dsimp only
                rw [hdw]
                simp
              · have hk : ((s.drop (st.i + 1)).takeWhile py_isalpha).length = 0 := by
                  omega
                have hstep : loopStep s st =
                    ⟨st.i + 1, st.in_quotes, st.quote_buffer,
                      st.parts ++
                        [alphaTok
                          (1 + ((s.drop (st.i + 1)).takeWhile py_isalpha).length)]⟩ := by
                  simp only [loopStep]
                  rw [if_neg hq, if_neg hin, if_neg hsp, if_pos hal, if_neg hgt]
                rw [ih (loopStep s st) (by rw [hstep]; simp; omega), hstep,
                  if_neg hq, if_neg hin, if_neg hsp, if_pos hal]
                dsimp only
                rw [show (s.drop (st.i + 1)).dropWhile py_isalpha = s.drop (st.i + 1) by
                  rw [dropWhile_eq_drop, hk, List.drop_zero]]
                simp
            · by_cases hdg : py_isdigit (s.getD st.i ' ') = true
              · have hdw : s.drop
                    (st.i + (1 + ((s.drop (st.i + 1)).takeWhile py_isdigit).length)) =
                    (s.drop (st.i + 1)).dropWhile py_isdigit := by
                  rw [dropWhile_eq_drop, List.drop_drop]
                  congr 1
                  omega
                by_cases hgt : 1 < 1 + ((s.drop (st.i + 1)).takeWhile py_isdigit).length
                · have hstep : loopStep s st =
                      ⟨st.i + (1 + ((s.drop (st.i + 1)).takeWhile py_isdigit).length),
                        st.in_quotes, st.quote_buffer,
                        st.parts ++
                          [digitTok
                            (1 + ((s.drop (st.i + 1)).takeWhile py_isdigit).length)]⟩ := by
                    simp only [loopStep]
                    rw [if_neg hq, if_neg hin, if_neg hsp, if_neg hal, if_pos hdg,
                      if_pos hgt]
                  rw [ih (loopStep s st) (by rw [hstep]; simp; omega), hstep,
                    if_neg hq, if_neg hin, if_neg hsp, if_neg hal, if_pos hdg]
                  dsimp only
                  rw [hdw]
                  simp
                · have hk : ((s.drop (st.i + 1)).takeWhile py_isdigit).length = 0 := by
                    omega
                  have hstep : loopStep s st =
                      ⟨st.i + 1, st.in_quotes, st.quote_buffer,
                        st.parts ++
                          [digitTok
                            (1 + ((s.drop (st.i + 1)).takeWhile py_isdigit).length)]⟩ := by
                    simp only [loopStep]
                    rw [if_neg hq, if_neg hin, if_neg hsp, if_neg hal, if_pos hdg,
                      if_neg hgt]
                  rw [ih (loopStep s st) (by rw [hstep]; simp; omega), hstep,
                    if_neg hq, if_neg hin, if_neg hsp, if_neg hal, if_pos hdg]
                  dsimp only
                  rw [show (s.drop (st.i + 1)).dropWhile py_isdigit =
                      s.drop (st.i + 1) by
                    rw [dropWhile_eq_drop, hk, List.drop_zero]]
                  simp
              · have hstep : loopStep s st =
                    ⟨st.i + 1, st.in_quotes, st.quote_buffer,
                      st.parts ++ [escChar (s.getD st.i ' ')]⟩ := by
                  simp only [loopStep]
                  rw [if_neg hq, if_neg hin, if_neg hsp, if_neg hal, if_neg hdg]
                rw [ih (loopStep s st) (by rw [hstep]; simp; omega), hstep,
                  if_neg hq, if_neg hin, if_neg hsp, if_neg hal, if_neg hdg]
                simp
    · rw [if_neg hc]
      have hd : s.drop st.i = [] := List.drop_eq_nil_of_le (by omega)
      rw [hd, genericScan_nil, loopParts]

/-- Membership in the source constant and in the spec's 14-character set
agree (the duplicated backslash in the source raw string is immaterial). -/
theorem mem_special_iff (c : Char) :
    c ∈ regex_special_chars ↔ c ∈ spec_special := by
  simp [regex_special_chars, spec_special]

/-- The source's escaping and the spec's escaping rule coincide. -/
theorem escList_eq_spec_escape : ∀ l : List Char, escList l = spec_escape l := by
  intro l
  induction l with
  | nil => rfl
  | cons c t ih =>
    simp only [escList, spec_escape, escChar, ih]
    by_cases h : c ∈ spec_special
    · rw [if_pos ((mem_special_iff c).mpr h), if_pos h]
    · rw [if_neg (fun hx => h ((mem_special_iff c).mp hx)), if_neg h]

/-- Escaping a string free of special characters changes nothing. -/
theorem escList_id : ∀ l : List Char, (∀ c ∈ l, c ∉ spec_special) →
    escList l = l := by
  intro l
  induction l with
  | nil => intro _; rfl
  | cons c t ih =>
    intro h
    have hc : c ∉ regex_special_chars :=
      fun hx => h c (by simp) ((mem_special_iff c).mp hx)
    simp only [escList, escChar, if_neg hc]
    rw [ih (fun x hx => h x (by simp [hx]))]
    rfl

/-- C1: in generic mode a double quote toggles a quoting sub-mode; the
characters buffered between an opening and a closing quote are emitted as
one segment, escaped character-by-character, and the quote characters
themselves never appear in the output; in particular on `"ABC-"123` the
output is the literal segment `ABC-` (hyphen unescaped) followed by a
digit-class token with count 3, quote-free. -/
theorem claim_C1 :
    (∀ content rest : List Char, (∀ c ∈ content, ¬(c = '"')) →
      genericScan ('"' :: (content ++ '"' :: rest)) false [] =
        escList content :: genericScan rest false []) ∧
    string_to_regex "\"ABC-\"123" true false = "ABC-\\d\x7b3\x7d" ∧
    '"' ∉ (string_to_regex "\"ABC-\"123" true false).data :=
  ⟨fun content rest h => genericScan_quoted content rest h, by decide, by decide⟩

theorem claim_C1_witness :
    genericScan ('"' :: (['A', 'B', 'C', '-'] ++ '"' :: ['1', '2', '3'])) false [] =
      escList ['A', 'B', 'C', '-'] :: genericScan ['1', '2', '3'] false [] :=
  claim_C1.1 ['A', 'B', 'C', '-'] ['1', '2', '3'] (by decide)

/-- C2: in generic mode a maximal alphabetic run of length 1 becomes the
bare letter-class token and of length `n > 1` the token with explicit count
`n`; likewise for maximal digit runs; in particular `aaa123` synthesizes to
`[a-zA-Z]` with count 3 followed by `\d` with count 3, which full-matches
`aaa123` and rejects `aa123`. -/
theorem claim_C2 :
    (∀ cs rest : List Char, cs ≠ [] → (∀ c ∈ cs, py_isalpha c = true) →
      (∀ c, rest.head? = some c → py_isalpha c = false) →
      genericScan (cs ++ rest) false [] =
        (if 1 < cs.length then "[a-zA-Z]\x7b" ++ toString cs.length ++ "\x7d"
          else "[a-zA-Z]").data :: genericScan rest false []) ∧
    (∀ cs rest : List Char, cs ≠ [] → (∀ c ∈ cs, py_isdigit c = true) →
      (∀ c, rest.head? = some c → py_isdigit c = false) →
      genericScan (cs ++ rest) false [] =
        (if 1 < cs.length then "\\d\x7b" ++ toString cs.length ++ "\x7d"
          else "\\d").data :: genericScan rest false []) ∧
    string_to_regex "aaa123" true false = "[a-zA-Z]\x7b3\x7d\\d\x7b3\x7d" ∧
    regexFullMatch (string_to_regex "aaa123" true false) "aaa123" = true ∧
    regexFullMatch (string_to_regex "aaa123" true false) "aa123" = false :=
  ⟨genericScan_alpha_run, genericScan_digit_run, by decide, by decide, by decide⟩

theorem claim_C2_witness :
    (genericScan (['a', 'b'] ++ ['1']) false [] =
      (if 1 < ['a', 'b'].length then
        "[a-zA-Z]\x7b" ++ toString ['a', 'b'].length ++ "\x7d"
      else "[a-zA-Z]").data :: genericScan ['1'] false []) ∧
    (genericScan (['1', '2'] ++ ['a']) false [] =
      (if 1 < ['1', '2'].length then
        "\\d\x7b" ++ toString ['1', '2'].length ++ "\x7d"
      else "\\d").data :: genericScan ['a'] false []) :=
  ⟨claim_C2.1 ['a', 'b'] ['1'] (by decide) (by decide) (by decide),
    claim_C2.2.1 ['1', '2'] ['a'] (by decide) (by decide) (by decide)⟩

/-- C3: in generic mode a maximal whitespace run of length 1 becomes the
bare whitespace-class token and of length `n > 1` the token with explicit
count `n` (never one-or-more); in particular two consecutive spaces
synthesize to a pattern full-matching two spaces but not one or three. -/
theorem claim_C3 :
    (∀ cs rest : List Char, cs ≠ [] → (∀ c ∈ cs, py_isspace c = true) →
      (∀ c, rest.head? = some c → py_isspace c = false) →
      genericScan (cs ++ rest) false [] =
        (if 1 < cs.length then "\\s\x7b" ++ toString cs.length ++ "\x7d"
          else "\\s").data :: genericScan rest false []) ∧
    string_to_regex "  " true false = "\\s\x7b2\x7d" ∧
    regexFullMatch (string_to_regex "  " true false) "  " = true ∧
    regexFullMatch (string_to_regex "  " true false) " " = false ∧
    regexFullMatch (string_to_regex "  " true false) "   " = false :=
  ⟨genericScan_space_run, by decide, by decide, by decide, by decide⟩

theorem claim_C3_witness :
    genericScan ([' ', ' '] ++ ['a']) false [] =
      (if 1 < [' ', ' '].length then
        "\\s\x7b" ++ toString [' ', ' '].length ++ "\x7d"
      else "\\s").data :: genericScan ['a'] false [] :=
  claim_C3.1 [' ', ' '] ['a'] (by decide) (by decide) (by decide)

/-- C4: literal mode escapes character by character exactly as the spec's
rule states, and on a string without regex-special characters it is the
identity. -/
theorem claim_C4 :
    (∀ s : String, string_to_regex s false false = String.mk (spec_escape s.data)) ∧
    (∀ s : String, (∀ c ∈ s.data, c ∉ spec_special) →
      string_to_regex s false false = s) := by
  constructor
  · intro s
    show String.mk (escList s.data) = String.mk (spec_escape s.data)
    exact congrArg String.mk (escList_eq_spec_escape s.data)
  · intro s h
    obtain ⟨d⟩ := s
    show String.mk (escList d) = String.mk d
    rw [escList_id d h]

theorem claim_C4_witness : string_to_regex "abc" false false = "abc" :=
  claim_C4.2 "abc" (by decide)

/-- C5: with `full_match = true` the output is exactly the start anchor,
the `full_match = false` output, and the end anchor. -/
theorem claim_C5 : ∀ (s : String) (g : Bool),
    string_to_regex s g true = "^" ++ string_to_regex s g false ++ "$" := by
  intro s g
  cases g <;> rfl

/-- C6: an input ending inside an open quote is not an error: the buffered
unterminated span is flushed at end of input, escaped like a closed span;
in particular `"abc` synthesizes to a pattern matching literal `abc`. -/
theorem claim_C6 :
    (∀ content : List Char, (∀ c ∈ content, ¬(c = '"')) → content ≠ [] →
      genericScan ('"' :: content) false [] = [escList content]) ∧
    string_to_regex "\"abc" true false = "abc" ∧
    regexFullMatch (string_to_regex "\"abc" true false) "abc" = true :=
  ⟨genericScan_unterminated, by decide, by decide⟩

theorem claim_C6_witness :
    genericScan ('"' :: ['a', 'b', 'c']) false [] = [escList ['a', 'b', 'c']] :=
  claim_C6.1 ['a', 'b', 'c'] (by decide) (by decide)

/-- C7: on the empty input the synthesizer returns the empty pattern
without anchors and exactly the two anchors with them, for either mode,
and every one of these outputs is a valid pattern. -/
theorem claim_C7 :
    string_to_regex "" true false = "" ∧ string_to_regex "" false false = "" ∧
    string_to_regex "" true true = "^$" ∧ string_to_regex "" false true = "^$" ∧
    patternValid (string_to_regex "" true false) = true ∧
    patternValid (string_to_regex "" false false) = true ∧
    patternValid (string_to_regex "" true true) = true ∧
    patternValid (string_to_regex "" false true) = true := by
  decide

/-- C8: the generic-mode scan is total: every loop iteration strictly
advances the cursor, the loop halts within `length` iterations from the
initial state, and the value computed by the explicit cursor loop is the
synthesizer's output. -/
theorem claim_C8 :
    (∀ (s : List Char) (st : LoopState), st.i < (loopStep s st).i) ∧
    (∀ s : List Char, s.length ≤ (runLoop s s.length initLoopState).i) ∧
    (∀ s : String, string_to_regex s true false =
      String.mk (loopParts (runLoop s.data s.data.length initLoopState)).flatten) := by
  refine ⟨loopStep_advances,
    fun s => runLoop_reaches s s.length initLoopState (by simp [initLoopState]),
    fun s => ?_⟩
  have h := runLoop_eq_genericScan s.data s.data.length initLoopState
    (by simp [initLoopState])
  rw [h]
  simp [initLoopState, string_to_regex]

/-- C10: the letter classifier accepts non-ASCII alphabetic characters but
the emitted class token is always the ASCII `[a-zA-Z]`, so the generic
pattern synthesized from `é` does not match `é` itself. -/
theorem claim_C10 :
    py_isalpha 'é' = true ∧
    string_to_regex "é" true false = "[a-zA-Z]" ∧
    regexFullMatch (string_to_regex "é" true false) "é" = false := by
  decide


end InvoiceMaster
